import Mathlib

/-!
Verification of the `dataDawg` scripts (`badgerdao_task.py`, `my_approvals.py`)
of the crypto-course-sivan repository, as a shallow embedding in Lean 4.

Machine words are modelled as `Nat` reduced modulo `2 ^ 64` (lanes) or
`2 ^ 8` (bytes); byte strings are `List Nat`.
-/

set_option maxRecDepth 4000

/-! ## Keccak-256 (the hash behind `Web3.keccak(text=...)`)

`Web3.keccak` is the original Keccak-256: sponge with rate 1088 bits
(136 bytes), capacity 512, output 256 bits, multi-rate padding `0x01 … 0x80`
(not the NIST SHA3 `0x06` padding). -/

/-- Rotate a 64-bit lane (a `Nat` below `2 ^ 64`) left by `n` bits. -/
def rotl64 (x n : Nat) : Nat :=
  ((x <<< n) ||| (x >>> (64 - n))) % 2 ^ 64

/-- The 24 Keccak-f[1600] round constants. -/
def keccakRC : List Nat :=
  [0x0000000000000001, 0x0000000000008082, 0x800000000000808a, 0x8000000080008000,
   0x000000000000808b, 0x0000000080000001, 0x8000000080008081, 0x8000000000008009,
   0x000000000000008a, 0x0000000000000088, 0x0000000080008009, 0x000000008000000a,
   0x000000008000808b, 0x800000000000008b, 0x8000000000008089, 0x8000000000008003,
   0x8000000000008002, 0x8000000000000080, 0x000000000000800a, 0x800000008000000a,
   0x8000000080008081, 0x8000000000008080, 0x0000000080000001, 0x8000000080008008]

/-- Rotation offsets `r[x][y]` indexed by `x + 5 * y`. -/
def rotOffsets : List Nat :=
  [0, 1, 62, 28, 27] ++ [36, 44, 6, 55, 20] ++ [3, 10, 43, 25, 39] ++
    [41, 45, 15, 21, 8] ++ [18, 2, 61, 56, 14]

/-- The θ step of Keccak-f[1600] on a 25-lane state `A` (lane `x + 5 * y`). -/
def theta (A : List Nat) : List Nat :=
  let C := (List.range 5).map fun x =>
    A.getD x 0 ^^^ A.getD (x + 5) 0 ^^^ A.getD (x + 10) 0 ^^^
      A.getD (x + 15) 0 ^^^ A.getD (x + 20) 0
  let D := (List.range 5).map fun x =>
    C.getD ((x + 4) % 5) 0 ^^^ rotl64 (C.getD ((x + 1) % 5) 0) 1
  (List.range 25).map fun i => A.getD i 0 ^^^ D.getD (i % 5) 0

/-- The combined ρ and π steps: lane `(x', y')` of the output is lane
`((x' + 3 y') % 5, x')` of the input rotated by its offset. -/
def rhoPi (A : List Nat) : List Nat :=
  (List.range 25).map fun j =>
    let xp := j % 5
    let yp := j / 5
    let src := (xp + 3 * yp) % 5 + 5 * xp
    rotl64 (A.getD src 0) (rotOffsets.getD src 0)

/-- The χ step. -/
def chi (B : List Nat) : List Nat :=
  (List.range 25).map fun j =>
    let x := j % 5
    let y := j / 5
    B.getD j 0 ^^^
      ((B.getD ((x + 1) % 5 + 5 * y) 0 ^^^ (2 ^ 64 - 1)) &&&
        B.getD ((x + 2) % 5 + 5 * y) 0)

/-- One Keccak-f round: θ, ρ, π, χ, then ι (xor the round constant into lane 0). -/
def keccakRound (rc : Nat) (A : List Nat) : List Nat :=
  match chi (rhoPi (theta A)) with
  | [] => []
  | a0 :: rest => (a0 ^^^ rc) :: rest

/-- The full Keccak-f[1600] permutation: 24 rounds. -/
def keccakF (A : List Nat) : List Nat :=
  keccakRC.foldl (fun S rc => keccakRound rc S) A

/-- Multi-rate padding `pad10*1` on bytes: append `0x01`, zeros, `0x80`
(`0x81` when only one byte of room remains). -/
def keccakPad (msg : List Nat) (rate : Nat) : List Nat :=
  let padLen := rate - msg.length % rate
  if padLen = 1 then msg ++ [0x81]
  else msg ++ [0x01] ++ List.replicate (padLen - 2) 0 ++ [0x80]

/-- Split a byte list into chunks of `rate` bytes; `nblocks` is the number of
chunks (structural fuel, `l.length / rate` at the call site). -/
def toBlocks (rate : Nat) (l : List Nat) : Nat → List (List Nat)
  | 0 => []
  | n + 1 => l.take rate :: toBlocks rate (l.drop rate) n

/-- Interpret 8 consecutive bytes (little-endian) starting at `off` as a lane. -/
def laneAt (block : List Nat) (off : Nat) : Nat :=
  (List.range 8).foldl (fun acc k => acc ||| (block.getD (off + k) 0 <<< (8 * k))) 0

/-- Absorb one rate-sized block into the sponge state and permute;
`laneAt` takes the byte offset of lane `i`, i.e. `8 * i`. -/
def absorbBlock (S : List Nat) (block : List Nat) : List Nat :=
  keccakF ((List.range 25).map fun i => S.getD i 0 ^^^ laneAt block (8 * i))

/-- Squeeze `n` output bytes from the state (little-endian per lane). -/
def squeeze (S : List Nat) (n : Nat) : List Nat :=
  (List.range n).map fun i => (S.getD (i / 8) 0 >>> (8 * (i % 8))) % 256

/-- Keccak-256 of a byte string: rate 136 bytes, 32 output bytes. -/
def keccak256 (msg : List Nat) : List Nat :=
  let padded := keccakPad msg 136
  let S := (toBlocks 136 padded (padded.length / 136)).foldl absorbBlock
    (List.replicate 25 0)
  squeeze S 32

/-- Lower-case hex digit of a value below 16. -/
def hexDigit (n : Nat) : Char :=
  if n < 10 then Char.ofNat (48 + n) else Char.ofNat (87 + n)

/-- Two-digit lower-case hex rendering of a byte. -/
def byteToHex (b : Nat) : List Char :=
  [hexDigit (b / 16), hexDigit (b % 16)]

/-- `0x`-prefixed lower-case hex string of a byte list, as `HexBytes.hex()`
renders a digest. -/
def bytesToHex (bs : List Nat) : String :=
  "0x" ++ String.mk (bs.map byteToHex).flatten

/-- UTF-8 bytes of an ASCII string (`Web3.keccak(text=...)` encodes the text;
all strings hashed by the program are ASCII, where UTF-8 is the identity). -/
def stringBytes (s : String) : List Nat :=
  s.data.map Char.toNat

/-- `Web3.keccak(text=s).hex()`: Keccak-256 of the encoded string, rendered
as a `0x`-prefixed hex string. -/
def web3KeccakHex (s : String) : String :=
  bytesToHex (keccak256 (stringBytes s))

/-! ## `badgerdao_task.py`: event ABI model -/

/-- One entry of an event ABI's `inputs` list (`ABIParam` pydantic model). -/
structure ABIParam where
  indexed : Bool
  name : String
  type : String
deriving DecidableEq

/-- The `EventABI` pydantic model. -/
structure EventABI where
  inputs : List ABIParam
  name : String
  type : String := "event"
  anonymous : Bool := false
deriving DecidableEq

/-- `EventABI.signature`: the event name followed by the comma-joined,
parenthesized list of the input type tags
(`f"{self.name}({','.join(param.type for param in self.inputs)})"`). -/
def EventABI.signature (e : EventABI) : String :=
  e.name ++ "(" ++ String.intercalate "," (e.inputs.map ABIParam.type) ++ ")"

/-- `EventABI.signature_hex`: `Web3.keccak(text=self.signature).hex()`. -/
def EventABI.signature_hex (e : EventABI) : String :=
  web3KeccakHex e.signature

/-- The `ERC20_APPROVAL_ABI` value constructed in `main` of
`badgerdao_task.py`. -/
def ERC20_APPROVAL_ABI : EventABI :=
  { anonymous := false
    inputs :=
      [{ indexed := true, name := "owner", type := "address" },
       { indexed := true, name := "spender", type := "address" },
       { indexed := false, name := "value", type := "uint256" }]
    name := "Approval"
    type := "event" }

/-! ## `my_approvals.py`: signature constant -/

/-- The `event_signature` string of `my_approvals.py`. -/
def event_signature : String := "Approval(address,address,uint256)"

/-- `APPROVAL_EVENT_SIGNATURE = Web3.keccak(text=event_signature).hex()`. -/
def APPROVAL_EVENT_SIGNATURE : String := web3KeccakHex event_signature

/-! ## `my_approvals.py`: address-topic padding (`get_approval_logs`) -/

/-- Python `str.zfill(width)` on a list of characters: left-pad with `'0'`
up to `width`, keeping a leading sign character in front of the padding. -/
def zfill (s : List Char) (width : Nat) : List Char :=
  match s with
  | [] => List.replicate width '0'
  | c :: rest =>
    if width ≤ (c :: rest).length then c :: rest
    else if c = '+' ∨ c = '-' then
      c :: (List.replicate (width - (c :: rest).length) '0' ++ rest)
    else List.replicate (width - (c :: rest).length) '0' ++ (c :: rest)

/-- The topic encoding of an address in `get_approval_logs`:
`'0x' + address[2:].zfill(64)`. -/
def paddedAddress (address : String) : String :=
  "0x" ++ String.mk (zfill (address.data.drop 2) 64)

/-- Modelled from the spec: decoding an address back from a 32-byte topic
word takes the low-order 20 bytes (the last 40 hex characters) and puts the
`0x` marker back in front. The decoding direction appears only in the spec's
round-trip statement, not in the script itself. -/
def addressOfTopic (topic : String) : String :=
  "0x" ++ String.mk (topic.data.drop (topic.data.length - 40))

/-- Hexadecimal digit test for address characters. -/
def isHexChar (c : Char) : Bool :=
  c.isDigit || ('a' ≤ c && c ≤ 'f') || ('A' ≤ c && c ≤ 'F')

/-! ## `my_approvals.py`: token metadata resolver (`get_token_name`) -/

/-- The two contract calls `name()` and `decimals()` issued by
`get_token_name`, modelled as collaborator results: `Except` errors stand
for a revert, a missing method, or any other call failure. -/
structure ContractCalls where
  nameCall : Except String String
  decimalsCall : Except String Nat

/-- `get_token_name`: try `name()` then `decimals()`; any failure of either
call is caught and replaced by the fallback pair. The Lean function is
total: no exception escapes. -/
def get_token_name (env : ContractCalls) : String × Nat :=
  match env.nameCall with
  | .error _ => ("Unknown Token", 18)
  | .ok n =>
    match env.decimalsCall with
    | .error _ => ("Unknown Token", 18)
    | .ok d => (n, d)

/-! ## `my_approvals.py`: amount normalization (`display_log`) -/

/-- `int.from_bytes(data, byteorder='big')`. -/
def intFromBytesBig (data : List Nat) : Nat :=
  data.foldl (fun acc b => acc * 256 + b) 0

/-- The normalization `amount = raw / (10 ** decimals)` in `display_log`,
as exact division in `ℚ`. -/
def amountNormalizer (raw : Nat) (decimals : Nat) : ℚ :=
  (raw : ℚ) / 10 ^ decimals

/-- A raw log entry as `my_approvals.py` uses it: the emitting contract
address and the (non-indexed) data bytes. -/
structure ApprovalLog where
  address : String
  data : List Nat
deriving DecidableEq

/-- `display_log`: look up the token metadata for the log's address and
normalize the raw amount; the displayed line is modelled as the
(name, amount) pair. -/
def display_log (log : ApprovalLog) (names : List (String × (String × Nat))) :
    String × ℚ :=
  let meta := ((names.find? fun p => p.1 = log.address).map Prod.snd).getD ("", 0)
  (meta.1, amountNormalizer (intFromBytesBig log.data) meta.2)

/-! ## `my_approvals.py`: the batch driver (`get_approval_logs`) -/

/-- The collaborators of `get_approval_logs`: the outcome of the
`w3.eth.get_logs` call and the per-address metadata resolver
(`get_token_name`'s contract calls, per address). -/
structure FetchEnv where
  fetchResult : Except String (List ApprovalLog)
  calls : String → ContractCalls

/-- The metadata map of `get_approval_logs`:
`addresses = set(log['address'] for log in logs)` followed by
`names = {addr: get_token_name(w3, addr) for addr in addresses}` —
one `get_token_name` call per distinct address. -/
def buildNames (logs : List ApprovalLog) (calls : String → ContractCalls) :
    List (String × (String × Nat)) :=
  ((logs.map ApprovalLog.address).dedup).map fun a => (a, get_token_name (calls a))

/-- `get_approval_logs` (display part): the fetch failure is caught
(`except Exception`: print and `return`), the empty batch returns early,
and otherwise every log is displayed. `.error` in the result would mean an
exception escaping to the caller; no branch produces one. -/
def get_approval_logs (env : FetchEnv) :
    Except String (Option (List (String × ℚ))) :=
  match env.fetchResult with
  | .error _ => .ok none
  | .ok logs =>
    if logs.length = 0 then .ok none
    else
      let names := buildNames logs env.calls
      .ok (some (logs.map fun log => display_log log names))

/-! ## `badgerdao_task.py`: `parse_event` and the Python dict merge -/

/-- A decoded value in a parsed-event mapping: the provenance entries are a
hex string and a block number; decoded ABI parameters may be of any of the
shapes below. -/
inductive EventValue where
  | str (s : String)
  | nat (n : Nat)
deriving DecidableEq

/-- A raw log entry as `parse_event` consumes it: `transactionHash` bytes
and `blockNumber`. -/
structure RawLog where
  transactionHash : List Nat
  blockNumber : Nat
deriving DecidableEq

/-- Python dict insertion: overwrite the value at an existing key (keeping
its position), otherwise append the binding. -/
def dictInsert (m : List (String × EventValue)) (k : String) (v : EventValue) :
    List (String × EventValue) :=
  if m.any fun p => p.1 = k then
    m.map fun p => if p.1 = k then (k, v) else p
  else m ++ [(k, v)]

/-- Build a Python dict from a list of bindings, later bindings
overwriting earlier ones — the semantics of
`{'transaction': …, 'block_number': …, **event_data['args']}`. -/
def dictOfList (pairs : List (String × EventValue)) : List (String × EventValue) :=
  pairs.foldl (fun m p => dictInsert m p.1 p.2) []

/-- Dict lookup. -/
def dictGet (m : List (String × EventValue)) (k : String) : Option EventValue :=
  (m.find? fun p => p.1 = k).map Prod.snd

/-- `parse_event`: the two provenance entries (`event['transactionHash'].hex()`
and `event['blockNumber']`) merged with the decoded named parameters
(`**event_data['args']`, supplied here by the `get_event_data` collaborator
as an ordered binding list). -/
def parse_event (event : RawLog) (args : List (String × EventValue)) :
    List (String × EventValue) :=
  dictOfList
    ([("transaction", EventValue.str (bytesToHex event.transactionHash)),
      ("block_number", EventValue.nat event.blockNumber)] ++ args)

/-! ## `badgerdao_task.py`: the block-bucket aggregation in `main` -/

/-- Python `range(a, b, step)` for a positive step: the fuel `n` bounds the
length (`(b - a + step - 1) / step` at call sites). -/
def pyRangeAux (a b step : Nat) : Nat → List Nat
  | 0 => []
  | n + 1 => if a < b then a :: pyRangeAux (a + step) b step n else []

/-- Python `range(a, b, step)` (positive step). -/
def pyRange (a b step : Nat) : List Nat :=
  pyRangeAux a b step (b - a)

/-- The intervals `pd.cut` builds from a list of bin edges: consecutive
pairs, each interval left-open and right-closed (`right=True`, the default
used by `main`). -/
def pdIntervals (edges : List Nat) : List (Nat × Nat) :=
  edges.zip edges.tail

/-- `pd.cut` bucket assignment of one value: the first interval `(l, r]`
with `l < v ≤ r`, `none` (NaN, later dropped by `groupby`) otherwise. -/
def cutAssign (edges : List Nat) (v : Nat) : Option (Nat × Nat) :=
  (pdIntervals edges).find? fun p => p.1 < v && v ≤ p.2

/-- The grouping of `summary_table.groupby(pd.cut(index, range(START_BLOCK,
END_BLOCK, width)))`: which blocks of the index land in each bucket. -/
def bucketBlocks (edges : List Nat) (blocks : List Nat) :
    List ((Nat × Nat) × List Nat) :=
  (pdIntervals edges).map fun iv => (iv, blocks.filter fun b => iv.1 < b && b ≤ iv.2)

/-- Whether a modelled collaborator call failed. -/
def callFailed {α : Type} : Except String α → Bool
  | .error _ => true
  | .ok _ => false

/-! ## Helper lemmas: Python dict semantics -/

theorem find?_replace_self (m : List (String × EventValue)) (k : String)
    (v : EventValue) (h : (m.any fun p => decide (p.1 = k)) = true) :
    ((m.map fun p => if p.1 = k then (k, v) else p).find?
        fun p => decide (p.1 = k)) = some (k, v) := by
  induction m with
  | nil => simp at h
  | cons p rest ih =>
    by_cases hp : p.1 = k
    · simp [hp]
    · rw [List.any_cons] at h
      rcases Bool.or_eq_true_iff.mp h with h1 | h2
      · exact absurd (of_decide_eq_true h1) hp
      · rw [List.map_cons, if_neg hp,
          List.find?_cons_of_neg _ (by simpa using hp), ih h2]

theorem dictGet_dictInsert_self (m : List (String × EventValue)) (k : String)
    (v : EventValue) : dictGet (dictInsert m k v) k = some v := by
  unfold dictInsert dictGet
  by_cases h : (m.any fun p => decide (p.1 = k)) = true
  · simp only [h, if_true]
    rw [find?_replace_self _ _ _ h]
    rfl
  · have hf : (m.any fun p => decide (p.1 = k)) = false := by
      rwa [Bool.not_eq_true] at h
    simp only [hf, Bool.false_eq_true, if_false]
    have hnone : (m.find? fun p => decide (p.1 = k)) = none := by
      apply List.find?_eq_none.mpr
      intro x hx hpx
      have hany : (m.any fun p => decide (p.1 = k)) = true :=
        List.any_eq_true.mpr ⟨x, hx, hpx⟩
      simp [hany] at hf
    rw [List.find?_append, hnone]
    simp

theorem find?_replace_ne (m : List (String × EventValue)) (k k₀ : String)
    (v : EventValue) (hne : k₀ ≠ k) :
    ((m.map fun p => if p.1 = k then (k, v) else p).find?
        fun p => decide (p.1 = k₀)) =
      m.find? fun p => decide (p.1 = k₀) := by
  induction m with
  | nil => rfl
  | cons p rest ih =>
    by_cases hp : p.1 = k
    · rw [List.map_cons, if_pos hp,
        List.find?_cons_of_neg _ (by simpa using Ne.symm hne),
        List.find?_cons_of_neg _ (by simp [hp, Ne.symm hne]), ih]
    · rw [List.map_cons, if_neg hp]
      by_cases hp₀ : p.1 = k₀
      · rw [List.find?_cons_of_pos _ (by simpa using hp₀),
          List.find?_cons_of_pos _ (by simpa using hp₀)]
      · rw [List.find?_cons_of_neg _ (by simpa using hp₀),
          List.find?_cons_of_neg _ (by simpa using hp₀), ih]

theorem dictGet_dictInsert_ne (m : List (String × EventValue)) (k k₀ : String)
    (v : EventValue) (hne : k₀ ≠ k) :
    dictGet (dictInsert m k v) k₀ = dictGet m k₀ := by
  unfold dictInsert dictGet
  by_cases h : (m.any fun p => decide (p.1 = k)) = true
  · simp only [h, if_true]
    rw [find?_replace_ne _ _ _ _ hne]
  · have hf : (m.any fun p => decide (p.1 = k)) = false := by
      rwa [Bool.not_eq_true] at h
    simp only [hf, Bool.false_eq_true, if_false]
    rw [List.find?_append]
    have : (([(k, v)]).find? fun p => decide (p.1 = k₀)) = none := by
      simp [Ne.symm hne]
    simp [this]

theorem dictGet_foldl_of_not_mem (args : List (String × EventValue))
    (m : List (String × EventValue)) (k : String)
    (h : k ∉ args.map Prod.fst) :
    dictGet (args.foldl (fun m p => dictInsert m p.1 p.2) m) k = dictGet m k := by
  induction args generalizing m with
  | nil => rfl
  | cons a rest ih =>
    simp only [List.map_cons, List.mem_cons, not_or] at h
    rw [List.foldl_cons, ih _ h.2, dictGet_dictInsert_ne _ _ _ _ h.1]

theorem dictGet_foldl_of_mem_nodup (args : List (String × EventValue))
    (m : List (String × EventValue)) (k : String) (v : EventValue)
    (hn : (args.map Prod.fst).Nodup) (hm : (k, v) ∈ args) :
    dictGet (args.foldl (fun m p => dictInsert m p.1 p.2) m) k = some v := by
  induction args generalizing m with
  | nil => cases hm
  | cons a rest ih =>
    rw [List.map_cons, List.nodup_cons] at hn
    rcases List.mem_cons.mp hm with rfl | hmem
    · rw [List.foldl_cons, dictGet_foldl_of_not_mem _ _ _ hn.1,
        dictGet_dictInsert_self]
    · rw [List.foldl_cons]
      exact ih _ hn.2 hmem

/-! ## Claim theorems -/

/-- C1: hashing `"Approval(address,address,uint256)"` with the Keccak-256
construction used by the program — both `EventABI.signature_hex` on the
Approval ABI of `badgerdao_task.py` (whose signature string is exactly that
text) and `APPROVAL_EVENT_SIGNATURE` of `my_approvals.py` — yields the
fixed published digest
`0x8c5be1e5ebec7d5bd14f71427d1e84f3dd0314c0f7b2291e5b200ac8c7c3b925`.
Both are pure functions of the text, so every call yields this same value. -/
theorem C1_approval_signature_digest :
    ERC20_APPROVAL_ABI.signature = "Approval(address,address,uint256)" ∧
    ERC20_APPROVAL_ABI.signature_hex =
      "0x8c5be1e5ebec7d5bd14f71427d1e84f3dd0314c0f7b2291e5b200ac8c7c3b925" ∧
    APPROVAL_EVENT_SIGNATURE =
      "0x8c5be1e5ebec7d5bd14f71427d1e84f3dd0314c0f7b2291e5b200ac8c7c3b925" := by
  refine ⟨by decide, by decide, by decide⟩

/-- C2: the derived signature string is the event name followed by the
parenthesized, comma-joined type tags in declaration order, and any two
`EventABI` values with the same name and the same ordered type tags — in
particular ones differing only in parameter names or indexed flags — derive
equal signature strings (and hence equal signature hashes). -/
theorem C2_signature_shape_and_independence :
    (∀ e : EventABI,
      e.signature =
        e.name ++ "(" ++ String.intercalate "," (e.inputs.map ABIParam.type) ++ ")") ∧
    ∀ e₁ e₂ : EventABI, e₁.name = e₂.name →
      e₁.inputs.map ABIParam.type = e₂.inputs.map ABIParam.type →
      e₁.signature = e₂.signature ∧ e₁.signature_hex = e₂.signature_hex := by
  refine ⟨fun e => rfl, fun e₁ e₂ h₁ h₂ => ?_⟩
  have hs : e₁.signature = e₂.signature := by
    unfold EventABI.signature
    rw [h₁, h₂]
  exact ⟨hs, by unfold EventABI.signature_hex; rw [hs]⟩

/-- Witness for C2: the Approval ABI and a variant of it with different
parameter names and indexed flags derive the same signature string and
hash. -/
theorem C2_signature_shape_and_independence_witness :
    EventABI.signature ERC20_APPROVAL_ABI =
      EventABI.signature
        { inputs :=
            [{ indexed := false, name := "src", type := "address" },
             { indexed := true, name := "guy", type := "address" },
             { indexed := true, name := "wad", type := "uint256" }]
          name := "Approval" } ∧
    EventABI.signature_hex ERC20_APPROVAL_ABI =
      EventABI.signature_hex
        { inputs :=
            [{ indexed := false, name := "src", type := "address" },
             { indexed := true, name := "guy", type := "address" },
             { indexed := true, name := "wad", type := "uint256" }]
          name := "Approval" } :=
  C2_signature_shape_and_independence.2 _ _ rfl rfl

/-- C5 counterexample: the claim's exact fallback pair
`("unknown token", 18)` is not what the code returns — `get_token_name`
falls back to the capitalized string `"Unknown Token"`, so on an address
whose `name()` call fails the result differs from the claimed pair. -/
theorem C5_fallback_pair_cx :
    get_token_name
        { nameCall := .error "execution reverted", decimalsCall := .ok 6 } ≠
      ("unknown token", 18) := by
  decide

/-- C5 (amended): for every contract on which either metadata call fails,
`get_token_name` returns normally (it is a total function — the exception
is caught) with the fallback pair `("Unknown Token", 18)`. -/
theorem C5_fallback_on_failure (env : ContractCalls)
    (h : callFailed env.nameCall = true ∨ callFailed env.decimalsCall = true) :
    get_token_name env = ("Unknown Token", 18) := by
  unfold get_token_name
  rcases hn : env.nameCall with e | n
  · rfl
  · rcases hd : env.decimalsCall with e | d
    · rfl
    · rcases h with h | h
      · rw [hn] at h
        cases h
      · rw [hd] at h
        cases h

/-- Witness for C5: a concrete environment where only `decimals()` fails
yields the fallback pair. -/
theorem C5_fallback_on_failure_witness :
    callFailed (Except.error "no method" : Except String Nat) = true ∧
    get_token_name
        { nameCall := .ok "Tether USD", decimalsCall := .error "no method" } =
      ("Unknown Token", 18) :=
  ⟨by decide,
   C5_fallback_on_failure
     { nameCall := .ok "Tether USD", decimalsCall := .error "no method" }
     (Or.inr (by decide))⟩

/-- C7 counterexample: a failing log fetch does not propagate — the
`except Exception` handler in `get_approval_logs` catches it, prints the
error and returns `None`, so the modelled run result is a normal `.ok none`
rather than an escaping exception. -/
theorem C7_fetch_error_not_propagated_cx :
    get_approval_logs
        { fetchResult := .error "ConnectionError",
          calls := fun _ => { nameCall := .ok "T", decimalsCall := .ok 18 } } =
      .ok none := by
  rfl

/-- C7 (amended): every failure of the log-fetch call is caught inside
`get_approval_logs`, which returns early with no displayed output; the
failure never escapes to the run level. -/
theorem C7_fetch_error_caught (env : FetchEnv) (e : String)
    (h : env.fetchResult = .error e) :
    get_approval_logs env = .ok none := by
  unfold get_approval_logs
  rw [h]

/-- Witness for C7: a concrete environment whose fetch fails is handled
with the early `.ok none` return. -/
theorem C7_fetch_error_caught_witness :
    ({ fetchResult := .error "ProviderError",
       calls := fun _ => { nameCall := .ok "T", decimalsCall := .ok 18 } } :
        FetchEnv).fetchResult = .error "ProviderError" ∧
    get_approval_logs
        { fetchResult := .error "ProviderError",
          calls := fun _ => { nameCall := .ok "T", decimalsCall := .ok 18 } } =
      .ok none :=
  ⟨rfl,
   C7_fetch_error_caught
     { fetchResult := .error "ProviderError",
       calls := fun _ => { nameCall := .ok "T", decimalsCall := .ok 18 } }
     "ProviderError" rfl⟩

/-- C9: the metadata map of a batch has exactly the distinct log addresses
as keys (no duplicates, and an address is a key iff some fetched log bears
it), with exactly one `get_token_name` invocation per key — the map has one
entry per distinct address and every entry's value is that single call's
result. -/
theorem C9_metadata_once_per_address (logs : List ApprovalLog)
    (calls : String → ContractCalls) :
    ((buildNames logs calls).map Prod.fst).Nodup ∧
    (∀ a, a ∈ (buildNames logs calls).map Prod.fst ↔
      a ∈ logs.map ApprovalLog.address) ∧
    (buildNames logs calls).length =
      (logs.map ApprovalLog.address).dedup.length ∧
    ∀ p ∈ buildNames logs calls, p.2 = get_token_name (calls p.1) := by
  unfold buildNames
  have hkeys :
      (((logs.map ApprovalLog.address).dedup.map
          fun a => (a, get_token_name (calls a))).map Prod.fst) =
        (logs.map ApprovalLog.address).dedup := by
    rw [List.map_map]
    exact List.map_id _
  refine ⟨?_, ?_, ?_, ?_⟩
  · rw [hkeys]
    exact (logs.map ApprovalLog.address).nodup_dedup
  · intro a
    rw [hkeys]
    exact List.mem_dedup
  · rw [List.length_map]
  · intro p hp
    rcases List.mem_map.mp hp with ⟨a, _, rfl⟩
    rfl

/-- Witness for C9: a concrete batch with two logs sharing an address has a
two-key metadata map with the two distinct addresses. -/
theorem C9_metadata_once_per_address_witness :
    ((buildNames
        [{ address := "0xaa", data := [1] }, { address := "0xaa", data := [2] },
         { address := "0xbb", data := [] }]
        fun _ => { nameCall := .ok "T", decimalsCall := .ok 18 }).map
      Prod.fst).Nodup ∧
    ("0xaa" ∈ (buildNames
        [{ address := "0xaa", data := [1] }, { address := "0xaa", data := [2] },
         { address := "0xbb", data := [] }]
        fun _ => { nameCall := .ok "T", decimalsCall := .ok 18 }).map Prod.fst ↔
      "0xaa" ∈ (["0xaa", "0xaa", "0xbb"] : List String)) :=
  ⟨(C9_metadata_once_per_address _ _).1,
   (C9_metadata_once_per_address _ _).2.1 "0xaa"⟩

/-- C4: the amount normalization of `display_log` maps raw amount 0 with 18
decimals to 0, raw amount `10 ^ 18` with 18 decimals to 1, and is monotonic
non-decreasing in the raw amount for every fixed decimals value in 0–255
over all 256-bit unsigned integers. -/
theorem C4_amount_normalization :
    amountNormalizer 0 18 = 0 ∧
    amountNormalizer (10 ^ 18) 18 = 1 ∧
    ∀ d : Nat, d ≤ 255 → ∀ a b : Nat, a < 2 ^ 256 → b < 2 ^ 256 → a ≤ b →
      amountNormalizer a d ≤ amountNormalizer b d := by
  refine ⟨by simp [amountNormalizer], ?_, ?_⟩
  · unfold amountNormalizer
    have hc : ((10 ^ 18 : ℕ) : ℚ) = 10 ^ 18 := by
      push_cast
      ring
    rw [hc]
    exact div_self (by positivity)
  · intro d hd a b ha hb hab
    unfold amountNormalizer
    exact (div_le_div_iff_of_pos_right (by positivity)).mpr (by exact_mod_cast hab)

/-- Witness for C4: the two fixed vectors, and the monotonicity instance
`3 / 10 ^ 7 ≤ 5 / 10 ^ 7`. -/
theorem C4_amount_normalization_witness :
    amountNormalizer 0 18 = 0 ∧
    amountNormalizer (10 ^ 18) 18 = 1 ∧
    (7 : Nat) ≤ 255 ∧ (3 : Nat) < 2 ^ 256 ∧ (5 : Nat) < 2 ^ 256 ∧
    (3 : Nat) ≤ 5 ∧ amountNormalizer 3 7 ≤ amountNormalizer 5 7 :=
  ⟨C4_amount_normalization.1, C4_amount_normalization.2.1,
   by decide, by decide, by decide, by decide,
   C4_amount_normalization.2.2 7 (by decide) 3 5 (by decide) (by decide)
     (by decide)⟩

/-- C6 counterexample: with the spec's own example (blocks 100, 105, 209;
range [100, 300); width 100), the code's bucketing (`pd.cut` over
`range(START, END, width)`) assigns neither block 100 nor block 209 to any
bucket: the bin edges are just `[100, 200]` (the `range` stops below 300),
and `pd.cut`'s default intervals are left-open, so 100 is excluded — the
claimed half-open buckets `[100, 200)` and `[200, 300)` do not match. -/
theorem C6_half_open_buckets_cx :
    pyRange 100 300 100 = [100, 200] ∧
    cutAssign (pyRange 100 300 100) 100 = none ∧
    cutAssign (pyRange 100 300 100) 209 = none := by
  refine ⟨by decide, by decide, by decide⟩

/-- C6 (amended): the aggregator groups blocks into the left-open
right-closed intervals between consecutive edges of
`range(START_BLOCK, END_BLOCK, width)`; a block is assigned only to an
interval that contains it, and blocks at or below the first edge, or above
the last edge, are dropped. On the example (blocks 100, 105, 209, width
100, range [100, 300)): the only bucket is (100, 200], which contains
block 105; blocks 100, 209 and 300 are dropped. -/
theorem C6_bucket_assignment :
    (∀ edges v l r, cutAssign edges v = some (l, r) →
      (l, r) ∈ pdIntervals edges ∧ l < v ∧ v ≤ r) ∧
    pdIntervals (pyRange 100 300 100) = [(100, 200)] ∧
    cutAssign (pyRange 100 300 100) 105 = some (100, 200) ∧
    cutAssign (pyRange 100 300 100) 100 = none ∧
    cutAssign (pyRange 100 300 100) 209 = none ∧
    cutAssign (pyRange 100 300 100) 300 = none ∧
    bucketBlocks (pyRange 100 300 100) [100, 105, 209] = [((100, 200), [105])] := by
  refine ⟨?_, by decide, by decide, by decide, by decide, by decide, by decide⟩
  intro edges v l r h
  unfold cutAssign at h
  refine ⟨List.mem_of_find?_eq_some h, ?_⟩
  have hp := List.find?_some h
  simpa using hp

/-- Witness for C6: the bucket found for block 105 is a genuine interval of
the edge list and contains 105. -/
theorem C6_bucket_assignment_witness :
    (100, 200) ∈ pdIntervals [100, 200] ∧ 100 < 105 ∧ 105 ≤ 200 :=
  C6_bucket_assignment.1 [100, 200] 105 100 200 (by decide)

/-- C8 counterexample: when the decoded parameters themselves contain a
binding named `transaction`, the returned mapping binds `transaction` to
the decoded value, not to the log's transaction hash — the claim's
unconditional provenance binding fails. -/
theorem C8_provenance_cx :
    dictGet
        (parse_event { transactionHash := [0xab], blockNumber := 5 }
          [("transaction", EventValue.nat 7)]) "transaction" ≠
      some (EventValue.str (bytesToHex [0xab])) := by
  decide

/-- C8 (amended): for every successfully decoded raw log whose decoded
parameters are not named `transaction` or `block_number` (and have
pairwise-distinct names, as `get_event_data`'s dict guarantees), the
mapping returned by `parse_event` binds `transaction` to the log's
transaction hash in hex form, `block_number` to its block number, and every
decoded named parameter to its decoded value. -/
theorem C8_parse_event_provenance (event : RawLog)
    (args : List (String × EventValue))
    (hn : (args.map Prod.fst).Nodup)
    (ht : "transaction" ∉ args.map Prod.fst)
    (hb : "block_number" ∉ args.map Prod.fst) :
    dictGet (parse_event event args) "transaction" =
      some (EventValue.str (bytesToHex event.transactionHash)) ∧
    dictGet (parse_event event args) "block_number" =
      some (EventValue.nat event.blockNumber) ∧
    ∀ k v, (k, v) ∈ args → dictGet (parse_event event args) k = some v := by
  have hrw : parse_event event args =
      args.foldl (fun m p => dictInsert m p.1 p.2)
        [("transaction", EventValue.str (bytesToHex event.transactionHash)),
         ("block_number", EventValue.nat event.blockNumber)] := by
    unfold parse_event dictOfList
    rw [List.foldl_append]
    rfl
  refine ⟨?_, ?_, ?_⟩
  · rw [hrw, dictGet_foldl_of_not_mem _ _ _ ht]
    rfl
  · rw [hrw, dictGet_foldl_of_not_mem _ _ _ hb]
    rfl
  · intro k v hkv
    rw [hrw]
    exact dictGet_foldl_of_mem_nodup _ _ _ _ hn hkv

/-- Witness for C8: a concrete Approval log with decoded parameters
`owner`, `spender`, `value` keeps both provenance bindings and all decoded
bindings. -/
theorem C8_parse_event_provenance_witness :
    dictGet
        (parse_event { transactionHash := [0xab, 0xcd], blockNumber := 13129988 }
          [("owner", EventValue.str "0xaaaa"), ("spender", EventValue.str "0xbbbb"),
           ("value", EventValue.nat 1000)]) "transaction" =
      some (EventValue.str (bytesToHex [0xab, 0xcd])) ∧
    dictGet
        (parse_event { transactionHash := [0xab, 0xcd], blockNumber := 13129988 }
          [("owner", EventValue.str "0xaaaa"), ("spender", EventValue.str "0xbbbb"),
           ("value", EventValue.nat 1000)]) "block_number" =
      some (EventValue.nat 13129988) ∧
    ∀ k v,
      (k, v) ∈
        [("owner", EventValue.str "0xaaaa"), ("spender", EventValue.str "0xbbbb"),
         ("value", EventValue.nat 1000)] →
      dictGet
          (parse_event { transactionHash := [0xab, 0xcd], blockNumber := 13129988 }
            [("owner", EventValue.str "0xaaaa"), ("spender", EventValue.str "0xbbbb"),
             ("value", EventValue.nat 1000)]) k =
        some v :=
  C8_parse_event_provenance
    { transactionHash := [0xab, 0xcd], blockNumber := 13129988 }
    [("owner", EventValue.str "0xaaaa"), ("spender", EventValue.str "0xbbbb"),
     ("value", EventValue.nat 1000)]
    (by decide) (by decide) (by decide)

/-- C10: the decoded-parameter mapping is merged after the two provenance
entries, so a decoded parameter literally named `transaction` or
`block_number` overwrites the provenance value under that key, and the
provenance values are kept exactly when no parameter bears those names. -/
theorem C10_parse_event_override (event : RawLog)
    (args : List (String × EventValue))
    (hn : (args.map Prod.fst).Nodup) :
    (∀ v, ("transaction", v) ∈ args →
      dictGet (parse_event event args) "transaction" = some v) ∧
    (∀ v, ("block_number", v) ∈ args →
      dictGet (parse_event event args) "block_number" = some v) ∧
    ("transaction" ∉ args.map Prod.fst →
      dictGet (parse_event event args) "transaction" =
        some (EventValue.str (bytesToHex event.transactionHash))) ∧
    ("block_number" ∉ args.map Prod.fst →
      dictGet (parse_event event args) "block_number" =
        some (EventValue.nat event.blockNumber)) := by
  have hrw : parse_event event args =
      args.foldl (fun m p => dictInsert m p.1 p.2)
        [("transaction", EventValue.str (bytesToHex event.transactionHash)),
         ("block_number", EventValue.nat event.blockNumber)] := by
    unfold parse_event dictOfList
    rw [List.foldl_append]
    rfl
  refine ⟨?_, ?_, ?_, ?_⟩
  · intro v hv
    rw [hrw]
    exact dictGet_foldl_of_mem_nodup _ _ _ _ hn hv
  · intro v hv
    rw [hrw]
    exact dictGet_foldl_of_mem_nodup _ _ _ _ hn hv
  · intro ht
    rw [hrw, dictGet_foldl_of_not_mem _ _ _ ht]
    rfl
  · intro hb
    rw [hrw, dictGet_foldl_of_not_mem _ _ _ hb]
    rfl

/-- Witness for C10: with a decoded parameter named `transaction`, the
returned mapping binds `transaction` to the decoded value `7`, not to the
hash. -/
theorem C10_parse_event_override_witness :
    dictGet
        (parse_event { transactionHash := [0xab], blockNumber := 5 }
          [("transaction", EventValue.nat 7)]) "transaction" =
      some (EventValue.nat 7) :=
  (C10_parse_event_override { transactionHash := [0xab], blockNumber := 5 }
      [("transaction", EventValue.nat 7)] (by decide)).1
    (EventValue.nat 7) (by decide)

/-- C3: encoding a valid 20-byte address (a `0x`-prefixed string of 40 hex
characters) as a filter topic via `'0x' + address[2:].zfill(64)` and then
decoding the address back from the low-order 20 bytes of that 32-byte topic
word yields the original address unchanged. -/
theorem C3_address_topic_roundtrip (addr : String)
    (hlen : addr.data.length = 42)
    (hpre : addr.data.take 2 = ['0', 'x'])
    (hhex : ∀ c ∈ addr.data.drop 2, isHexChar c) :
    addressOfTopic (paddedAddress addr) = addr := by
  obtain ⟨l⟩ := addr
  have hlen' : l.length = 42 := hlen
  have hpre' : l.take 2 = ['0', 'x'] := hpre
  have hhex' : ∀ c ∈ l.drop 2, isHexChar c := hhex
  have hslen : (l.drop 2).length = 40 := by
    rw [List.length_drop, hlen']
  rcases hd : l.drop 2 with _ | ⟨c, rest⟩
  · rw [hd] at hslen
    simp at hslen
  · have hrest : rest.length = 39 := by
      rw [hd] at hslen
      simpa using hslen
    have hc : isHexChar c := hhex' c (by rw [hd]; exact List.mem_cons_self _ _)
    have hsign : ¬(c = '+' ∨ c = '-') := by
      rintro (rfl | rfl) <;> exact absurd hc (by decide)
    have hz : zfill (l.drop 2) 64 = List.replicate 24 '0' ++ (c :: rest) := by
      rw [hd]
      simp only [zfill]
      rw [if_neg (by rw [List.length_cons, hrest]; decide), if_neg hsign,
        List.length_cons, hrest]
    have hpadded : paddedAddress ⟨l⟩ =
        ⟨'0' :: 'x' :: (List.replicate 24 '0' ++ (c :: rest))⟩ := by
      have h₀ : paddedAddress ⟨l⟩ = "0x" ++ String.mk (zfill (l.drop 2) 64) := rfl
      rw [h₀, hz]
      apply String.ext
      rw [String.data_append]
      rfl
    rw [hpadded]
    have h₁ : addressOfTopic ⟨'0' :: 'x' :: (List.replicate 24 '0' ++ (c :: rest))⟩ =
        "0x" ++ String.mk
          (('0' :: 'x' :: (List.replicate 24 '0' ++ (c :: rest))).drop
            (('0' :: 'x' :: (List.replicate 24 '0' ++ (c :: rest))).length - 40)) :=
      rfl
    have hdatalen : ('0' :: 'x' :: (List.replicate 24 '0' ++ (c :: rest))).length = 66 := by
      simp [List.length_append, hrest]
    have hB : ('0' :: 'x' :: (List.replicate 24 '0' ++ (c :: rest))) =
        ('0' :: 'x' :: List.replicate 24 '0') ++ (c :: rest) := by
      simp
    have hdrop : ('0' :: 'x' :: (List.replicate 24 '0' ++ (c :: rest))).drop
        (('0' :: 'x' :: (List.replicate 24 '0' ++ (c :: rest))).length - 40) =
        c :: rest := by
      rw [hdatalen, hB]
      exact List.drop_left' (by decide)
    rw [h₁, hdrop]
    apply String.ext
    rw [String.data_append]
    show '0' :: 'x' :: (c :: rest) = l
    conv_rhs => rw [← List.take_append_drop 2 l]
    rw [hpre', hd]
    rfl

/-- Witness for C3: the round trip at the all-zero and all-`0xff`
addresses. -/
theorem C3_address_topic_roundtrip_witness :
    addressOfTopic (paddedAddress "0x0000000000000000000000000000000000000000") =
      "0x0000000000000000000000000000000000000000" ∧
    addressOfTopic (paddedAddress "0xffffffffffffffffffffffffffffffffffffffff") =
      "0xffffffffffffffffffffffffffffffffffffffff" :=
  ⟨C3_address_topic_roundtrip _ (by decide) (by decide) (by decide),
   C3_address_topic_roundtrip _ (by decide) (by decide) (by decide)⟩
